import Mathlib

/-!
# Verification of the 3speak-subtitle-generator orchestrator

Shallow embedding of the scheduling/persistence core of the
3speak-subtitle-generator service (`src/main.py`, `src/db_manager.py`,
`dashboard/app.py`) and proofs of the specified properties.

Modelling conventions:
* MongoDB collections are Lean lists of structure values, in insertion order.
* `datetime` values are `Nat` timestamps; `datetime.min` is `0`.
* A document field that may be absent (or whose Python access uses
  `.get(...)`) is an `Option`; `none` stands for both "missing" and `null`.
* Network/ML side effects (IPFS download, transcription, translation,
  subtitle generation) are opaque: we count their invocations and take
  their results from an explicit environment record.
-/

namespace Subtitle3Speak

/-- A video document as stored in one of the three source collections
(`videos_collection` for legacy, `embed_collection`, `embed_audio_collection`),
with the `_video_type` tag added by the aggregator.  Only the fields the
orchestrator reads are modelled. -/
structure VideoDoc where
  owner : String
  permlink : String
  /-- `_video_type`, set by the aggregator; `none` before tagging. -/
  videoType : Option String
  status : Option String
  /-- legacy creation date field `created`. -/
  created : Option Nat
  /-- embed/audio creation date field `createdAt`. -/
  createdAt : Option Nat
  filename : Option String
  manifest_cid : Option String
  audio_cid : Option String
  video_v2 : Option String
  publish_data : Option Nat
  deriving Repr, DecidableEq

/-- A priority-lane entry (`subtitles-priority` collection):
`{author, permlink, requested_at}`. -/
structure PriorityEntry where
  author : String
  permlink : String
  requested_at : Nat
  deriving Repr, DecidableEq

/-- The singleton processing-status document written by `set_processing`. -/
structure StatusDoc where
  author : String
  permlink : String
  isEmbed : Bool
  isAudio : Bool
  started_at : Nat
  deriving Repr, DecidableEq

/-- A document of the subtitles (progress) collection: one per video,
subtitle CIDs keyed by language in the `subtitles` sub-document. -/
structure SubtitleDoc where
  author : String
  permlink : String
  /-- the `subtitles` sub-document: language code ↦ subtitle CID. -/
  subtitles : List (String × String)
  video_cid : String
  isEmbed : Bool
  isAudio : Bool
  created_at : Nat
  updated_at : Nat
  video_created_at : Option Nat
  deriving Repr, DecidableEq

/-! ## Status Beacon (`set_processing` / `clear_processing`)

`set_processing` issues `replace_one({}, doc, upsert=True)`: with an empty
filter it replaces the first document of the collection if one exists,
otherwise inserts.  `clear_processing` issues `delete_many({})`. -/

/-- `DatabaseManager.set_processing`: `replace_one({}, doc, upsert=True)` on
the status collection — replace the first document, or insert when empty. -/
def set_processing (coll : List StatusDoc) (author permlink : String)
    (video_type : String) (now : Nat) : List StatusDoc :=
  let doc : StatusDoc :=
    { author := author, permlink := permlink,
      isEmbed := video_type = "embed" ∨ video_type = "audio",
      isAudio := video_type = "audio", started_at := now }
  match coll with
  | [] => [doc]
  | _ :: rest => doc :: rest

/-- `DatabaseManager.clear_processing`: `delete_many({})`. -/
def clear_processing (_coll : List StatusDoc) : List StatusDoc := []

/-- One administrative interaction with the status collection. -/
inductive StatusOp where
  | set (author permlink video_type : String) (now : Nat)
  | clear
  deriving Repr, DecidableEq

/-- Apply a sequence of `set_processing`/`clear_processing` calls. -/
def applyStatusOps (coll : List StatusDoc) : List StatusOp → List StatusDoc
  | [] => coll
  | StatusOp.set a p t n :: ops => applyStatusOps (set_processing coll a p t n) ops
  | StatusOp.clear :: ops => applyStatusOps (clear_processing coll) ops

/-! ## Priority Lane (`get_priority_video` and its pop) -/

/-- The pop inside `DatabaseManager.get_priority_video`:
`find_one_and_delete({}, sort=[('requested_at', 1)])` — atomically remove and
return the entry with the smallest `requested_at` (the first such entry in
insertion order on ties), or `none` on an empty lane.  Returns the popped
entry together with the remaining lane. -/
def popOldest : List PriorityEntry → Option (PriorityEntry × List PriorityEntry)
  | [] => none
  | e :: es =>
    match popOldest es with
    | none => some (e, [])
    | some (m, rest) =>
      if e.requested_at ≤ m.requested_at then some (e, es)
      else some (m, e :: rest)

/-- A successful pop removes exactly one entry (needed to justify that the
drain loop terminates). -/
theorem popOldest_length : ∀ (lane : List PriorityEntry) (e : PriorityEntry)
    (rest : List PriorityEntry), popOldest lane = some (e, rest) →
    lane.length = rest.length + 1 := by
  intro lane
  induction lane with
  | nil => intro e rest h; simp [popOldest] at h
  | cons a es ih =>
    intro e rest h
    simp only [popOldest] at h
    cases hes : popOldest es with
    | none =>
      rw [hes] at h
      simp only [Option.some.injEq, Prod.mk.injEq] at h
      obtain ⟨rfl, rfl⟩ := h
      cases es with
      | nil => rfl
      | cons b bs =>
        simp only [popOldest] at hes
        cases hbs : popOldest bs with
        | none => rw [hbs] at hes; simp at hes
        | some mv =>
          obtain ⟨m2, r2⟩ := mv
          rw [hbs] at hes
          by_cases h2 : b.requested_at ≤ m2.requested_at <;> simp [h2] at hes
    | some me =>
      obtain ⟨m, mrest⟩ := me
      rw [hes] at h
      by_cases hle : a.requested_at ≤ m.requested_at
      · simp only [hle, if_true, Option.some.injEq, Prod.mk.injEq] at h
        obtain ⟨rfl, rfl⟩ := h
        simp
      · simp only [hle, if_false, Option.some.injEq, Prod.mk.injEq] at h
        obtain ⟨rfl, rfl⟩ := h
        have := ih m mrest hes
        simp only [List.length_cons]
        omega

/-- `DatabaseManager.get_video_by_owner_permlink`: look the video up in the
legacy, embed and audio collections in that order, tagging `_video_type`. -/
def get_video_by_owner_permlink (legacyColl embedColl audioColl : List VideoDoc)
    (owner permlink : String) : Option VideoDoc :=
  match legacyColl.find? fun v => v.owner = owner ∧ v.permlink = permlink with
  | some v => some { v with videoType := some "legacy" }
  | none =>
    match embedColl.find? fun v => v.owner = owner ∧ v.permlink = permlink with
    | some v => some { v with videoType := some "embed" }
    | none =>
      match audioColl.find? fun v => v.owner = owner ∧ v.permlink = permlink with
      | some v => some { v with videoType := some "audio" }
      | none => none

/-- `DatabaseManager.get_priority_video`: pop the oldest priority request
(removing it from the lane regardless of what happens next), then resolve it
to a full video document; `none` when the lane is empty or the video is not
found in any collection.  Returns the result and the remaining lane. -/
def get_priority_video (legacyColl embedColl audioColl : List VideoDoc)
    (lane : List PriorityEntry) : Option VideoDoc × List PriorityEntry :=
  match popOldest lane with
  | none => (none, lane)
  | some (e, rest) =>
    (get_video_by_owner_permlink legacyColl embedColl audioColl e.author e.permlink,
     rest)

/-! ## Cursor Tracker (`get_last_processed_video_date` and the effective
start date computed in `SubtitleService.run`) -/

/-- `DatabaseManager.get_last_processed_video_date`: the largest
`video_created_at` over subtitle documents carrying that field, or `none`. -/
def get_last_processed_video_date (coll : List SubtitleDoc) : Option Nat :=
  (coll.filterMap (·.video_created_at)).max?

/-- The effective start date computed at the top of `SubtitleService.run`:
the later of the `START_DATE` override and the last processed video date,
whichever of the two exist. -/
def effectiveStart (start_date : Option Nat) (coll : List SubtitleDoc) :
    Option Nat :=
  match get_last_processed_video_date coll with
  | none => start_date
  | some last =>
    match start_date with
    | some s => some (max s last)
    | none => some last

/-! ## Per-Item Progress Store (`save_subtitle`,
`get_existing_subtitle_languages`) -/

/-- Set a key in the `subtitles` sub-document: Mongo `$set` on
`subtitles.<language>` overwrites the key when present and adds it otherwise. -/
def setLang (m : List (String × String)) (language cid : String) :
    List (String × String) :=
  match m with
  | [] => [(language, cid)]
  | (k, v) :: rest =>
    if k = language then (k, cid) :: rest else (k, v) :: setLang rest language cid

/-- `DatabaseManager.save_subtitle`: `update_one` with upsert on
`{author, permlink}`.  `$set` refreshes `video_cid`, `subtitles.<language>`
and `updated_at` on every call; `$setOnInsert` fields (`isEmbed`, `isAudio`,
`created_at`, and `video_created_at` when supplied) apply only when the
document is inserted. -/
def save_subtitle (coll : List SubtitleDoc) (author permlink video_cid
    language subtitle_cid : String) (video_type : String)
    (video_created_at : Option Nat) (now : Nat) : List SubtitleDoc :=
  match coll with
  | [] =>
    [{ author := author, permlink := permlink,
       subtitles := [(language, subtitle_cid)], video_cid := video_cid,
       isEmbed := video_type = "embed" ∨ video_type = "audio",
       isAudio := video_type = "audio",
       created_at := now, updated_at := now,
       video_created_at := video_created_at }]
  | d :: rest =>
    if d.author = author ∧ d.permlink = permlink then
      { d with video_cid := video_cid,
               subtitles := setLang d.subtitles language subtitle_cid,
               updated_at := now } :: rest
    else
      d :: save_subtitle rest author permlink video_cid language subtitle_cid
        video_type video_created_at now

/-- `DatabaseManager.get_existing_subtitle_languages`: the language keys of
the `subtitles` sub-document of the first matching document, else `[]`. -/
def get_existing_subtitle_languages (coll : List SubtitleDoc)
    (author permlink : String) : List String :=
  match coll.find? fun d => d.author = author ∧ d.permlink = permlink with
  | some d => d.subtitles.map Prod.fst
  | none => []

/-- The mutable arguments of one `save_subtitle` call (the `(author,
permlink)` identity is fixed separately when sequencing calls). -/
structure SaveArgs where
  video_cid : String
  language : String
  subtitle_cid : String
  video_type : String
  video_created_at : Option Nat
  now : Nat
  deriving Repr, DecidableEq

/-- Apply a sequence of `save_subtitle` calls on the same `(author, permlink)`. -/
def applySaves (coll : List SubtitleDoc) (author permlink : String) :
    List SaveArgs → List SubtitleDoc
  | [] => coll
  | a :: rest =>
    applySaves
      (save_subtitle coll author permlink a.video_cid a.language a.subtitle_cid
        a.video_type a.video_created_at a.now)
      author permlink rest

/-! ## Work Executor (`SubtitleService.process_video`)

The expensive external steps — IPFS download, transcription, per-language
translation and subtitle generation — are the Work Executor.  We count
their invocations and take their outcomes from an `ExecEnv` record.  Pure
text transformations (corrections, transcript assembly, tagging) and the
IPFS pinning/Mongo-write feature flags do not affect the executor-call
count or the returned status, and are not modelled. -/

/-- One entry of the `languages` configuration list. -/
structure LangCfg where
  code : String
  /-- `max_duration` in minutes; `0` means no limit. -/
  max_duration : Nat
  deriving Repr, DecidableEq

/-- Outcomes of the opaque external steps of `process_video`. -/
structure ExecEnv where
  downloadOk : Bool
  /-- transcription result: the segment end times, in seconds. -/
  segments : List Nat
  detected_language : String
  /-- whether SRT generation succeeds for a language. -/
  srtOk : String → Bool

/-- String prefix test on the underlying character lists. -/
def strStartsWith (s p : String) : Bool := p.data.isPrefixOf s.data

/-- String suffix test on the underlying character lists. -/
def strEndsWith (s p : String) : Bool :=
  p.data.reverse.isPrefixOf s.data.reverse

/-- Python `str.removeprefix`: drop the prefix when present, else unchanged. -/
def pyRemoveLeading (s p : String) : String :=
  if strStartsWith s p then ⟨s.data.drop p.data.length⟩ else s

/-- Python `str.removesuffix`: drop the suffix when present, else unchanged. -/
def pyRemoveTrailing (s p : String) : String :=
  if strEndsWith s p then ⟨s.data.take (s.data.length - p.data.length)⟩
  else s

/-- `video.get('_video_type', 'legacy')`. -/
def videoTypeOf (v : VideoDoc) : String := v.videoType.getD "legacy"

/-- Python truthiness of an optional string, as used by `not cid` /
`not hls_cid` at main.py:112: both `None` and `''` are falsy. -/
def pyTruthy : Option String → Bool
  | none => false
  | some s => !(s = "")

/-- The CID extraction at the top of `process_video`: `audio_cid` for audio,
`manifest_cid` for embed, else the legacy `filename` stripped of its
`ipfs://` prefix (`None` when the filename is missing or empty).  The value
is kept exactly as Python computes it — an empty string stored in
`audio_cid`/`manifest_cid`, or a legacy filename of exactly `ipfs://`,
yields `some ""` here; such values are falsy at the `not cid` guard, which
`process_video` applies through `pyTruthy`. -/
def extractCid (v : VideoDoc) : Option String :=
  if videoTypeOf v = "audio" then v.audio_cid
  else if videoTypeOf v = "embed" then v.manifest_cid
  else
    match v.filename with
    | none => none
    | some f => if f = "" then none else some (pyRemoveLeading f "ipfs://")

/-- The HLS manifest CID for legacy videos carrying `video_v2`
(`ipfs://CID/manifest.m3u8`); `None` otherwise.  As with `extractCid`, a
`video_v2` that strips to the empty string (e.g. `ipfs:///manifest.m3u8`)
yields `some ""`, which the `not hls_cid` guard treats as absent via
`pyTruthy`. -/
def extractHlsCid (v : VideoDoc) : Option String :=
  if videoTypeOf v = "legacy" then
    match v.video_v2 with
    | none => none
    | some s =>
      if s = "" then none
      else some (pyRemoveTrailing (pyRemoveLeading s "ipfs://") "/manifest.m3u8")
  else none

/-- `SubtitleService.process_video`, as (reported success, number of Work
Executor invocations).  Executor invocations are: the IPFS download, the
transcription, each per-language translation (skipped for the detected
language) and each per-language SRT generation.

Control flow follows the source: fail with no calls when neither CID is
truthy in Python's sense (`not cid and not hls_cid`, where `None` and `''`
are both falsy); succeed with no calls when the already-stored language
list is non-empty and contains every configured code; then download (fail
after 1 call on error), transcribe (fail after 2 calls on empty segments),
filter languages by `max_duration` against the last segment end and drop
the ones already stored, succeed after 2 calls when none remain, else run
translation+generation per remaining language and succeed. -/
def process_video (cfg : List LangCfg) (db_existing : List String)
    (v : VideoDoc) (env : ExecEnv) : Bool × Nat :=
  let cid := extractCid v
  let hls_cid := extractHlsCid v
  if !pyTruthy cid && !pyTruthy hls_cid then (false, 0)
  else
    let all_lang_codes := cfg.map (·.code)
    if db_existing ≠ [] ∧ ∀ c ∈ all_lang_codes, c ∈ db_existing then (true, 0)
    else if env.downloadOk = false then (false, 1)
    else if env.segments = [] then (false, 2)
    else
      let video_duration_secs := env.segments.getLast?.getD 0
      let eligible0 := (cfg.filter fun l =>
        l.max_duration = 0 ∨ video_duration_secs ≤ 60 * l.max_duration).map (·.code)
      let eligible :=
        if db_existing ≠ [] then eligible0.filter (fun l => l ∉ db_existing)
        else eligible0
      if eligible = [] then (true, 2)
      else
        (true, eligible.foldl (fun acc l =>
          acc + (if l = env.detected_language then 0 else 1) + 1) 2)

/-! ## Stable sorting

Python's `list.sort`/`sorted` and Mongo's single-key `sort` are modelled by
a stable insertion sort parameterised by a boolean `le`.  A stable sort
ascending by a key is uniquely determined by sortedness plus stability, so
the insertion sort below computes exactly what CPython's stable sort
computes for a total `le`. -/

/-- Insert `x` into `l` before the first element `y` with `¬ le x y`
(stable: `x` goes before elements it ties with, preserving original order
because `x` precedes them in the input). -/
def insertLe (le : α → α → Bool) (x : α) : List α → List α
  | [] => [x]
  | y :: ys => if le x y then x :: y :: ys else y :: insertLe le x ys

/-- Stable insertion sort by `le`. -/
def sortLe (le : α → α → Bool) : List α → List α
  | [] => []
  | x :: xs => insertLe le x (sortLe le xs)

/-! ## Source Aggregator (`DatabaseManager.get_videos_since`) -/

/-- The legacy `has_cid` sub-filter:
`filename` exists, is neither null nor `''`, and matches `^ipfs://`. -/
def hasCidFilename (v : VideoDoc) : Bool :=
  match v.filename with
  | none => false
  | some f => !(f = "") && strStartsWith f "ipfs://"

/-- The legacy `$or` filter of `get_videos_since`: published with
`created ≥ start_date` and a valid `ipfs://` filename, or scheduled with a
valid filename and `publish_data` strictly in the future. -/
def legacyQueryMatch (start_date now : Nat) (v : VideoDoc) : Bool :=
  ((match v.created with | some t => decide (start_date ≤ t) | none => false) &&
    hasCidFilename v && v.status = some "published") ||
  (hasCidFilename v && v.status = some "scheduled" &&
    (match v.publish_data with | some t => decide (now < t) | none => false))

/-- The embed filter: `createdAt ≥ embed_since`, a non-empty `manifest_cid`,
and status published (no scheduled alternative). -/
def embedQueryMatch (embed_since : Nat) (v : VideoDoc) : Bool :=
  (match v.createdAt with | some t => decide (embed_since ≤ t) | none => false) &&
  (match v.manifest_cid with | some c => !(c = "") | none => false) &&
  v.status = some "published"

/-- The audio filter: `createdAt ≥ embed_since`, a non-empty `audio_cid`,
and status published (no scheduled alternative). -/
def audioQueryMatch (embed_since : Nat) (v : VideoDoc) : Bool :=
  (match v.createdAt with | some t => decide (embed_since ≤ t) | none => false) &&
  (match v.audio_cid with | some c => !(c = "") | none => false) &&
  v.status = some "published"

/-- Mongo `.sort('created', 1)` (missing field sorts as the minimum). -/
def mongoSortByCreated (l : List VideoDoc) : List VideoDoc :=
  sortLe (fun a b => decide (a.created.getD 0 ≤ b.created.getD 0)) l

/-- Mongo `.sort('createdAt', 1)` (missing field sorts as the minimum). -/
def mongoSortByCreatedAt (l : List VideoDoc) : List VideoDoc :=
  sortLe (fun a b => decide (a.createdAt.getD 0 ≤ b.createdAt.getD 0)) l

/-- The merge key `v.get('created') or v.get('createdAt') or datetime.min`
of the final sort in `get_videos_since`. -/
def mergedDateKey (v : VideoDoc) : Nat :=
  match v.created with
  | some t => t
  | none => v.createdAt.getD 0

/-- `DatabaseManager.get_videos_since`: query each of the three collections
with its own filter and per-collection sort, tag `_video_type`, and sort the
concatenation ascending by `mergedDateKey`. -/
def get_videos_since (legacyColl embedColl audioColl : List VideoDoc)
    (start_date : Nat) (embed_start_date : Option Nat) (now : Nat) :
    List VideoDoc :=
  let embed_since := embed_start_date.getD start_date
  let legacy := (mongoSortByCreated
      (legacyColl.filter (legacyQueryMatch start_date now))).map
      fun v => { v with videoType := some "legacy" }
  let embed := (mongoSortByCreatedAt
      (embedColl.filter (embedQueryMatch embed_since))).map
      fun v => { v with videoType := some "embed" }
  let audio := (mongoSortByCreatedAt
      (audioColl.filter (audioQueryMatch embed_since))).map
      fun v => { v with videoType := some "audio" }
  sortLe (fun a b => decide (mergedDateKey a ≤ mergedDateKey b))
    (legacy ++ embed ++ audio)

/-! ## The scheduler's re-sort of the aggregated batch
(`SubtitleService.run`, `videos.sort(key=...)`) -/

/-- `type_order.get(v.get('_video_type'), 2)` with
`type_order = {'embed': 0, 'legacy': 1, 'audio': 2}`. -/
def type_order (t : Option String) : Nat :=
  match t with
  | some s => if s = "embed" then 0 else if s = "legacy" then 1 else 2
  | none => 2

/-- The three-part sort key of `SubtitleService.run`: priority creators
first, then source type in the order embed, legacy, audio, then published
before everything else. -/
def schedSortKey (priority_creators : List String) (v : VideoDoc) :
    Nat × Nat × Nat :=
  (if v.owner ∈ priority_creators then 0 else 1,
   type_order v.videoType,
   if v.status = some "published" then 0 else 1)

/-- Lexicographic comparison of the sort-key triples (Python tuple `≤`). -/
def tupLe (a b : Nat × Nat × Nat) : Bool :=
  decide (a.1 < b.1) ||
    (decide (a.1 = b.1) &&
      (decide (a.2.1 < b.2.1) ||
        (decide (a.2.1 = b.2.1) && decide (a.2.2 ≤ b.2.2))))

/-- `videos.sort(key=...)` in `SubtitleService.run`: stable ascending sort
by `schedSortKey`. -/
def scheduleOrder (priority_creators : List String)
    (videos : List VideoDoc) : List VideoDoc :=
  sortLe (fun a b =>
    tupLe (schedSortKey priority_creators a) (schedSortKey priority_creators b))
    videos

/-! ## Administrative enqueue-priority (`api_prioritize` in
`dashboard/app.py`) -/

/-- The collections the dashboard reads and writes. -/
structure DashState where
  videos_col : List VideoDoc
  embed_col : List VideoDoc
  embed_audio_col : List VideoDoc
  priority_col : List PriorityEntry
  deriving Repr, DecidableEq

/-- Outcome of `api_prioritize` (HTTP 404 / 409 / 200). -/
inductive ApiResult where
  | notFound
  | conflict
  | ok
  deriving Repr, DecidableEq

/-- `api_prioritize` in `dashboard/app.py`, after the password check and the
`author/permlink` parsing (not modelled): existence is checked against the
legacy (`videos_col`) and embed (`embed_col`) collections — the audio
collection is not consulted — answering 404 on a miss; then an entry already
in the priority queue answers 409; otherwise an entry stamped with the
current time is appended. -/
def api_prioritize (st : DashState) (author permlink : String) (now : Nat) :
    ApiResult × DashState :=
  if ¬((st.videos_col.find? fun v =>
          v.owner = author ∧ v.permlink = permlink).isSome ∨
       (st.embed_col.find? fun v =>
          v.owner = author ∧ v.permlink = permlink).isSome) then
    (ApiResult.notFound, st)
  else if (st.priority_col.find? fun e =>
      e.author = author ∧ e.permlink = permlink).isSome then
    (ApiResult.conflict, st)
  else
    (ApiResult.ok,
     { st with priority_col := st.priority_col ++ [⟨author, permlink, now⟩] })

/-! ## Blacklist Guard and the Scheduling Loop (`SubtitleService.run`)

The batch loop of `run`: at the top of each candidate iteration it pops the
Priority Lane in a `while` loop — each popped entry resolved to a video and
re-checked against the blacklist — then dispatches the normal candidate.
The `while` loop exits as soon as `get_priority_video` returns `None`,
which happens both when the lane is empty and when a popped entry has no
matching video.  Entries enqueued by the concurrent administrative agent
while a candidate is being processed are modelled as a list of injections
attached to that candidate, appended to the lane after its iteration's
drain.  The blacklist is only read by the loop, so it is a fixed parameter:
a run started after an author was blacklisted (perhaps after their item was
already enqueued) is a run whose lane already contains the item and whose
blacklist contains the entry. -/

/-- The two blacklist collections. -/
structure Blacklist where
  authors : List String
  items : List (String × String)
  deriving Repr, DecidableEq

/-- `DatabaseManager.is_blacklisted`: an author-scope entry for the author
exists, or an item-scope entry for `(author, permlink)` exists. -/
def is_blacklisted (bl : Blacklist) (author permlink : String) : Bool :=
  (bl.authors.find? fun a => a = author).isSome ||
  (bl.items.find? fun e => e.1 = author ∧ e.2 = permlink).isSome

/-- The three video source collections, for `get_video_by_owner_permlink`. -/
structure Catalog where
  legacyColl : List VideoDoc
  embedColl : List VideoDoc
  audioColl : List VideoDoc
  deriving Repr, DecidableEq

/-- Video lookup against a `Catalog`. -/
def lookupVideo (cat : Catalog) (owner permlink : String) : Option VideoDoc :=
  get_video_by_owner_permlink cat.legacyColl cat.embedColl cat.audioColl
    owner permlink

/-- Observable actions of the scheduling loop. -/
inductive Ev where
  /-- a popped priority entry was skipped as blacklisted. -/
  | skipPriority (author permlink : String)
  /-- `set_processing` (Status Beacon set). -/
  | beaconSet (author permlink : String)
  /-- `process_video` invoked (the Work Executor runs for this item). -/
  | procVideo (author permlink : String)
  /-- `clear_processing`. -/
  | beaconClear
  /-- a normal candidate was skipped as blacklisted. -/
  | skipNormal (author permlink : String)
  deriving Repr, DecidableEq

/-- The priority-drain `while` loop at the top of each candidate iteration,
structurally recursive on a fuel bound for the lane length (each pop removes
exactly one entry, so `lane.length` fuel always suffices): pop the oldest
entry, stop when the lane is empty or the popped entry has no matching video
(in that case the entry is already consumed), otherwise skip it when
blacklisted or run its beacon/process/clear cycle, and continue.  Returns
the emitted events and the remaining lane. -/
def drainPriorityFuel (bl : Blacklist) (cat : Catalog) :
    Nat → List PriorityEntry → List Ev × List PriorityEntry
  | 0, lane => ([], lane)
  | fuel + 1, lane =>
    match popOldest lane with
    | none => ([], lane)
    | some (e, rest) =>
      match lookupVideo cat e.author e.permlink with
      | none => ([], rest)
      | some v =>
        if is_blacklisted bl v.owner v.permlink then
          (Ev.skipPriority v.owner v.permlink ::
             (drainPriorityFuel bl cat fuel rest).1,
           (drainPriorityFuel bl cat fuel rest).2)
        else
          (Ev.beaconSet v.owner v.permlink ::
             Ev.procVideo v.owner v.permlink ::
             Ev.beaconClear :: (drainPriorityFuel bl cat fuel rest).1,
           (drainPriorityFuel bl cat fuel rest).2)

/-- The drain loop on a lane, with exactly enough fuel. -/
def drainPriority (bl : Blacklist) (cat : Catalog)
    (lane : List PriorityEntry) : List Ev × List PriorityEntry :=
  drainPriorityFuel bl cat lane.length lane

/-- One iteration record of the batch loop: the lane at the top of the
iteration, the drain's events, the lane left when the normal candidate is
dispatched, and the candidate's own events. -/
structure IterRec where
  laneBefore : List PriorityEntry
  drainEvents : List Ev
  laneAtDispatch : List PriorityEntry
  candEvents : List Ev
  deriving Repr, DecidableEq

/-- The `for` loop of `SubtitleService.run` over the sorted batch.  Each
candidate carries the priority entries the administrative agent enqueues
while it is processed; they join the lane after the iteration's drain.
There is no drain after the last candidate.  Returns the iteration records
and the final lane. -/
def runBatch (bl : Blacklist) (cat : Catalog) :
    List (VideoDoc × List PriorityEntry) → List PriorityEntry →
    List IterRec × List PriorityEntry
  | [], lane => ([], lane)
  | (v, inj) :: rest, lane =>
    ({ laneBefore := lane,
       drainEvents := (drainPriority bl cat lane).1,
       laneAtDispatch := (drainPriority bl cat lane).2,
       candEvents :=
         if is_blacklisted bl v.owner v.permlink then
           [Ev.skipNormal v.owner v.permlink]
         else
           [Ev.beaconSet v.owner v.permlink, Ev.procVideo v.owner v.permlink,
            Ev.beaconClear] } ::
       (runBatch bl cat rest ((drainPriority bl cat lane).2 ++ inj)).1,
     (runBatch bl cat rest ((drainPriority bl cat lane).2 ++ inj)).2)

/-- All events of a run, in order. -/
def batchEvents : List IterRec → List Ev
  | [] => []
  | r :: rs => r.drainEvents ++ r.candEvents ++ batchEvents rs

/-! ## Concrete sample data for witnesses and counterexamples -/

/-- Sample subtitle document used by concrete witnesses. -/
def sampleSub : SubtitleDoc :=
  { author := "alice", permlink := "p1", subtitles := [("en", "cidEn")],
    video_cid := "cidV", isEmbed := false, isAudio := false,
    created_at := 3, updated_at := 3, video_created_at := some 5 }

/-- Concrete fully-completed video with no content CID: legacy type, no
`filename`, no `video_v2`. -/
def cexVideo : VideoDoc :=
  { owner := "alice", permlink := "p1", videoType := some "legacy",
    status := some "published", created := some 10, createdAt := none,
    filename := none, manifest_cid := none, audio_cid := none,
    video_v2 := none, publish_data := none }

/-- Concrete fully-completed legacy video with a valid `ipfs://` filename. -/
def okVideo : VideoDoc :=
  { cexVideo with filename := some "ipfs://abc" }

/-- A benign executor environment. -/
def cexEnv : ExecEnv :=
  { downloadOk := true, segments := [60], detected_language := "en",
    srtOk := fun _ => true }

/-- An audio-type video document (lives in the audio collection). -/
def audioVideo : VideoDoc :=
  { owner := "bob", permlink := "p2", videoType := none,
    status := some "published", created := none, createdAt := some 20,
    filename := none, manifest_cid := none, audio_cid := some "audioCid",
    video_v2 := none, publish_data := none }

/-- A dashboard state whose only video is `audioVideo`, in the audio
collection, with an empty priority queue. -/
def cexDash : DashState :=
  { videos_col := [], embed_col := [], embed_audio_col := [audioVideo],
    priority_col := [] }

/-- A dashboard state with one legacy video and an empty priority queue. -/
def okDash : DashState :=
  { videos_col := [okVideo], embed_col := [], embed_audio_col := [],
    priority_col := [] }

/-- An embed video that is scheduled with a future publish time and has a
valid manifest CID. -/
def scheduledEmbed : VideoDoc :=
  { owner := "carol", permlink := "p3", videoType := none,
    status := some "scheduled", created := none, createdAt := some 50,
    filename := none, manifest_cid := some "mcid", audio_cid := none,
    video_v2 := none, publish_data := some 100 }

/-- A published audio video created earlier than `laterEmbed`. -/
def earlyAudio : VideoDoc :=
  { owner := "dan", permlink := "p4", videoType := some "audio",
    status := some "published", created := none, createdAt := some 1,
    filename := none, manifest_cid := none, audio_cid := some "acid",
    video_v2 := none, publish_data := none }

/-- A published embed video created later than `earlyAudio`. -/
def laterEmbed : VideoDoc :=
  { owner := "erin", permlink := "p5", videoType := some "embed",
    status := some "published", created := none, createdAt := some 2,
    filename := none, manifest_cid := some "mcid2", audio_cid := none,
    video_v2 := none, publish_data := none }

/-- An empty blacklist. -/
def emptyBl : Blacklist := { authors := [], items := [] }

/-- A catalog whose only video is `okVideo` (owner `alice`, permlink `p1`). -/
def cexCat : Catalog :=
  { legacyColl := [okVideo], embedColl := [], audioColl := [] }

/-- A priority entry with no matching video in `cexCat`. -/
def ghostEntry : PriorityEntry :=
  { author := "ghost", permlink := "gone", requested_at := 1 }

/-- A priority entry resolving to `okVideo` in `cexCat`. -/
def aliceEntry : PriorityEntry :=
  { author := "alice", permlink := "p1", requested_at := 2 }

/-- The single iteration record of the run over `[(laterEmbed, [])]` with
lane `[aliceEntry]` against `cexCat` and `emptyBl`. -/
def witnessRec : IterRec :=
  { laneBefore := [aliceEntry],
    drainEvents := [Ev.beaconSet "alice" "p1", Ev.procVideo "alice" "p1",
      Ev.beaconClear],
    laneAtDispatch := [],
    candEvents := [Ev.beaconSet "erin" "p5", Ev.procVideo "erin" "p5",
      Ev.beaconClear] }

/-- A legacy video by the blacklisted author `eve`. -/
def eveVideo : VideoDoc :=
  { owner := "eve", permlink := "p9", videoType := some "legacy",
    status := some "published", created := some 30, createdAt := none,
    filename := some "ipfs://evid", manifest_cid := none, audio_cid := none,
    video_v2 := none, publish_data := none }

/-- A blacklist that blocks the author `eve`. -/
def eveBl : Blacklist := { authors := ["eve"], items := [] }

/-- A catalog whose only video is `eveVideo`. -/
def eveCat : Catalog :=
  { legacyColl := [eveVideo], embedColl := [], audioColl := [] }

/-- A priority entry for `eve`'s item, enqueued before `eve` was
blacklisted. -/
def eveEntry : PriorityEntry :=
  { author := "eve", permlink := "p9", requested_at := 1 }

/-! ## Helper lemmas -/

theorem set_processing_length_le (coll : List StatusDoc) (a p t : String)
    (n : Nat) (h : coll.length ≤ 1) :
    (set_processing coll a p t n).length ≤ 1 := by
  cases coll with
  | nil => simp [set_processing]
  | cons d rest => simpa [set_processing] using h

theorem applyStatusOps_length_le (ops : List StatusOp) :
    ∀ coll : List StatusDoc, coll.length ≤ 1 →
      (applyStatusOps coll ops).length ≤ 1 := by
  induction ops with
  | nil => intro coll h; exact h
  | cons op ops ih =>
    intro coll h
    cases op with
    | set a p t n => exact ih _ (set_processing_length_le coll a p t n h)
    | clear => exact ih _ (by simp [clear_processing])

theorem popOldest_eq_none_iff (lane : List PriorityEntry) :
    popOldest lane = none ↔ lane = [] := by
  cases lane with
  | nil => simp [popOldest]
  | cons e es =>
    simp only [popOldest]
    cases h : popOldest es with
    | none => simp
    | some me =>
      obtain ⟨m, rest⟩ := me
      by_cases hle : e.requested_at ≤ m.requested_at <;> simp [hle]

theorem popOldest_spec (lane : List PriorityEntry) (e : PriorityEntry)
    (rest : List PriorityEntry) (h : popOldest lane = some (e, rest)) :
    e ∈ lane ∧ lane.Perm (e :: rest) ∧
      ∀ x ∈ lane, e.requested_at ≤ x.requested_at := by
  induction lane generalizing e rest with
  | nil => simp [popOldest] at h
  | cons a es ih =>
    simp only [popOldest] at h
    cases hes : popOldest es with
    | none =>
      rw [hes] at h
      obtain rfl := (popOldest_eq_none_iff es).mp hes
      simp only [Option.some.injEq, Prod.mk.injEq] at h
      obtain ⟨rfl, rfl⟩ := h
      refine ⟨List.mem_singleton.mpr rfl, List.Perm.refl _, ?_⟩
      intro x hx
      simp only [List.mem_singleton] at hx
      subst hx; exact le_refl _
    | some me =>
      obtain ⟨m, mrest⟩ := me
      rw [hes] at h
      obtain ⟨hmem, hperm, hmin⟩ := ih m mrest hes
      by_cases hle : a.requested_at ≤ m.requested_at
      · simp only [hle, if_pos, Option.some.injEq, Prod.mk.injEq] at h
        obtain ⟨rfl, rfl⟩ := h
        refine ⟨List.mem_cons_self a es, List.Perm.refl _, ?_⟩
        intro x hx
        rcases List.mem_cons.mp hx with rfl | hx
        · exact le_refl _
        · exact le_trans hle (hmin x hx)
      · simp only [hle, if_neg, not_false_iff, Option.some.injEq,
          Prod.mk.injEq] at h
        obtain ⟨rfl, rfl⟩ := h
        refine ⟨List.mem_cons_of_mem a hmem, ?_, ?_⟩
        · exact (List.Perm.cons a hperm).trans (List.Perm.swap m a mrest)
        · intro x hx
          rcases List.mem_cons.mp hx with rfl | hx
          · exact le_of_lt (lt_of_not_le hle)
          · exact hmin x hx

theorem drainPriority_none (bl : Blacklist) (cat : Catalog)
    (lane : List PriorityEntry) (h : popOldest lane = none) :
    drainPriority bl cat lane = ([], lane) := by
  obtain rfl := (popOldest_eq_none_iff lane).mp h
  rfl

theorem drainPriority_dangling (bl : Blacklist) (cat : Catalog)
    (lane : List PriorityEntry) (e : PriorityEntry)
    (rest : List PriorityEntry) (h : popOldest lane = some (e, rest))
    (hlook : lookupVideo cat e.author e.permlink = none) :
    drainPriority bl cat lane = ([], rest) := by
  unfold drainPriority
  rw [popOldest_length lane e rest h]
  simp only [drainPriorityFuel]
  rw [h]
  simp [hlook]

theorem drainPriority_skip (bl : Blacklist) (cat : Catalog)
    (lane : List PriorityEntry) (e : PriorityEntry)
    (rest : List PriorityEntry) (v : VideoDoc)
    (h : popOldest lane = some (e, rest))
    (hlook : lookupVideo cat e.author e.permlink = some v)
    (hb : is_blacklisted bl v.owner v.permlink = true) :
    drainPriority bl cat lane =
      (Ev.skipPriority v.owner v.permlink :: (drainPriority bl cat rest).1,
       (drainPriority bl cat rest).2) := by
  unfold drainPriority
  rw [popOldest_length lane e rest h]
  simp only [drainPriorityFuel]
  rw [h]
  simp [hlook, hb]

theorem drainPriority_proc (bl : Blacklist) (cat : Catalog)
    (lane : List PriorityEntry) (e : PriorityEntry)
    (rest : List PriorityEntry) (v : VideoDoc)
    (h : popOldest lane = some (e, rest))
    (hlook : lookupVideo cat e.author e.permlink = some v)
    (hb : is_blacklisted bl v.owner v.permlink = false) :
    drainPriority bl cat lane =
      (Ev.beaconSet v.owner v.permlink :: Ev.procVideo v.owner v.permlink ::
         Ev.beaconClear :: (drainPriority bl cat rest).1,
       (drainPriority bl cat rest).2) := by
  unfold drainPriority
  rw [popOldest_length lane e rest h]
  simp only [drainPriorityFuel]
  rw [h]
  simp [hlook, hb]

/-- Any beacon-set or process event emitted by the drain names a
non-blacklisted `(author, permlink)`. -/
theorem drain_events_not_blacklisted (bl : Blacklist) (cat : Catalog) :
    ∀ (n : Nat) (lane : List PriorityEntry), lane.length ≤ n →
      ∀ a p : String,
        (Ev.beaconSet a p ∈ (drainPriority bl cat lane).1 ∨
         Ev.procVideo a p ∈ (drainPriority bl cat lane).1) →
        is_blacklisted bl a p = false := by
  intro n
  induction n with
  | zero =>
    intro lane hlen a p hmem
    obtain rfl : lane = [] := List.length_eq_zero.mp (Nat.le_zero.mp hlen)
    rw [drainPriority_none bl cat [] rfl] at hmem
    simp at hmem
  | succ n ih =>
    intro lane hlen a p hmem
    cases hpop : popOldest lane with
    | none =>
      rw [drainPriority_none bl cat lane hpop] at hmem
      simp at hmem
    | some er =>
      obtain ⟨e, rest⟩ := er
      have hrest : rest.length ≤ n := by
        have := popOldest_length lane e rest hpop
        omega
      cases hlook : lookupVideo cat e.author e.permlink with
      | none =>
        rw [drainPriority_dangling bl cat lane e rest hpop hlook] at hmem
        simp at hmem
      | some v =>
        cases hb : is_blacklisted bl v.owner v.permlink with
        | true =>
          rw [drainPriority_skip bl cat lane e rest v hpop hlook hb] at hmem
          rcases hmem with hm | hm <;> simp only [List.mem_cons] at hm
          · rcases hm with hm | hm
            · exact Ev.noConfusion hm
            · exact ih rest hrest a p (Or.inl hm)
          · rcases hm with hm | hm
            · exact Ev.noConfusion hm
            · exact ih rest hrest a p (Or.inr hm)
        | false =>
          rw [drainPriority_proc bl cat lane e rest v hpop hlook hb] at hmem
          rcases hmem with hm | hm <;> simp only [List.mem_cons] at hm
          · rcases hm with hm | hm | hm | hm
            · injection hm with h1 h2
              subst h1; subst h2
              exact hb
            · exact Ev.noConfusion hm
            · exact Ev.noConfusion hm
            · exact ih rest hrest a p (Or.inl hm)
          · rcases hm with hm | hm | hm | hm
            · exact Ev.noConfusion hm
            · injection hm with h1 h2
              subst h1; subst h2
              exact hb
            · exact Ev.noConfusion hm
            · exact ih rest hrest a p (Or.inr hm)

/-- If every entry of the lane resolves to a catalog video, the drain
consumes the whole lane. -/
theorem drainPriority_resolves_empty (bl : Blacklist) (cat : Catalog) :
    ∀ (n : Nat) (lane : List PriorityEntry), lane.length ≤ n →
      (∀ e ∈ lane, (lookupVideo cat e.author e.permlink).isSome = true) →
      (drainPriority bl cat lane).2 = [] := by
  intro n
  induction n with
  | zero =>
    intro lane hlen _
    obtain rfl : lane = [] := List.length_eq_zero.mp (Nat.le_zero.mp hlen)
    rfl
  | succ n ih =>
    intro lane hlen hres
    cases hpop : popOldest lane with
    | none =>
      obtain rfl := (popOldest_eq_none_iff lane).mp hpop
      rfl
    | some er =>
      obtain ⟨e, rest⟩ := er
      obtain ⟨hmem, hperm, -⟩ := popOldest_spec lane e rest hpop
      have hrest : rest.length ≤ n := by
        have := popOldest_length lane e rest hpop
        omega
      have hres' : ∀ x ∈ rest,
          (lookupVideo cat x.author x.permlink).isSome = true :=
        fun x hx =>
          hres x (hperm.symm.mem_iff.mp (List.mem_cons_of_mem e hx))
      cases hlook : lookupVideo cat e.author e.permlink with
      | none =>
        have := hres e hmem
        rw [hlook] at this
        simp at this
      | some v =>
        cases hb : is_blacklisted bl v.owner v.permlink with
        | true =>
          rw [drainPriority_skip bl cat lane e rest v hpop hlook hb]
          exact ih rest hrest hres'
        | false =>
          rw [drainPriority_proc bl cat lane e rest v hpop hlook hb]
          exact ih rest hrest hres'

/-- Any beacon-set or process event of a whole run names a non-blacklisted
`(author, permlink)`: the drain part by `drain_events_not_blacklisted`, the
normal-candidate part by the dispatch-time guard check. -/
theorem runBatch_events_not_blacklisted (bl : Blacklist) (cat : Catalog) :
    ∀ (videos : List (VideoDoc × List PriorityEntry))
      (lane : List PriorityEntry) (a p : String),
      (Ev.beaconSet a p ∈ batchEvents (runBatch bl cat videos lane).1 ∨
       Ev.procVideo a p ∈ batchEvents (runBatch bl cat videos lane).1) →
      is_blacklisted bl a p = false := by
  intro videos
  induction videos with
  | nil =>
    intro lane a p hmem
    simp [runBatch, batchEvents] at hmem
  | cons vi rest ih =>
    obtain ⟨v, inj⟩ := vi
    intro lane a p hmem
    simp only [runBatch, batchEvents, List.mem_append] at hmem
    rcases hmem with hm | hm
    · rcases hm with (hd | hc) | hr
      · exact drain_events_not_blacklisted bl cat lane.length lane
          (le_refl _) a p (Or.inl hd)
      · cases hb : is_blacklisted bl v.owner v.permlink with
        | true => simp [hb] at hc
        | false =>
          simp [hb] at hc
          obtain ⟨rfl, rfl⟩ := hc
          exact hb
      · exact ih _ a p (Or.inl hr)
    · rcases hm with (hd | hc) | hr
      · exact drain_events_not_blacklisted bl cat lane.length lane
          (le_refl _) a p (Or.inr hd)
      · cases hb : is_blacklisted bl v.owner v.permlink with
        | true => simp [hb] at hc
        | false =>
          simp [hb] at hc
          obtain ⟨rfl, rfl⟩ := hc
          exact hb
      · exact ih _ a p (Or.inr hr)

theorem insertLe_perm (le : α → α → Bool) (x : α) (l : List α) :
    (insertLe le x l).Perm (x :: l) := by
  induction l with
  | nil => exact List.Perm.refl [x]
  | cons y ys ih =>
    by_cases h : le x y = true
    · simp [insertLe, h]
    · simp only [insertLe, h, if_false, Bool.not_eq_true]
      exact (List.Perm.cons y ih).trans (List.Perm.swap x y ys)

theorem sortLe_perm (le : α → α → Bool) (l : List α) :
    (sortLe le l).Perm l := by
  induction l with
  | nil => exact List.Perm.refl []
  | cons x xs ih =>
    exact (insertLe_perm le x (sortLe le xs)).trans (List.Perm.cons x ih)

theorem insertLe_pairwise (le : α → α → Bool)
    (htrans : ∀ a b c, le a b = true → le b c = true → le a c = true)
    (htotal : ∀ a b, le a b = true ∨ le b a = true)
    (x : α) (l : List α) (h : l.Pairwise fun a b => le a b = true) :
    (insertLe le x l).Pairwise fun a b => le a b = true := by
  induction l with
  | nil => simp [insertLe]
  | cons y ys ih =>
    obtain ⟨hy, hys⟩ := List.pairwise_cons.mp h
    by_cases hxy : le x y = true
    · simp only [insertLe, hxy, if_true]
      refine List.pairwise_cons.mpr ⟨?_, h⟩
      intro z hz
      rcases List.mem_cons.mp hz with rfl | hz
      · exact hxy
      · exact htrans x y z hxy (hy z hz)
    · simp only [insertLe, hxy, if_false, Bool.not_eq_true]
      refine List.pairwise_cons.mpr ⟨?_, ih hys⟩
      intro z hz
      rcases List.mem_cons.mp ((insertLe_perm le x ys).mem_iff.mp hz)
        with rfl | hz'
      · exact (htotal z y).resolve_left hxy
      · exact hy z hz'

theorem sortLe_pairwise (le : α → α → Bool)
    (htrans : ∀ a b c, le a b = true → le b c = true → le a c = true)
    (htotal : ∀ a b, le a b = true ∨ le b a = true) (l : List α) :
    (sortLe le l).Pairwise fun a b => le a b = true := by
  induction l with
  | nil => simp [sortLe]
  | cons x xs ih => exact insertLe_pairwise le htrans htotal x _ ih

theorem insertLe_filter_key {κ : Type} [DecidableEq κ] (key : α → κ)
    (le : α → α → Bool) (hrefl : ∀ a b, key a = key b → le a b = true)
    (x : α) (l : List α) (k : κ) :
    (insertLe le x l).filter (fun v => decide (key v = k)) =
      if key x = k then x :: l.filter (fun v => decide (key v = k))
      else l.filter (fun v => decide (key v = k)) := by
  induction l with
  | nil => by_cases h : key x = k <;> simp [insertLe, h]
  | cons y ys ih =>
    by_cases hxy : le x y = true
    · simp only [insertLe, hxy, if_true]
      by_cases hx : key x = k <;> simp [hx, List.filter]
    · simp only [insertLe, hxy, if_false, Bool.not_eq_true]
      by_cases hx : key x = k
      · have hyk : ¬ key y = k := fun hyk =>
          hxy (hrefl x y (hx.trans hyk.symm))
        simp [List.filter, hx, hyk, ih]
      · by_cases hyk : key y = k <;> simp [List.filter, hx, hyk, ih]

theorem sortLe_filter_key {κ : Type} [DecidableEq κ] (key : α → κ)
    (le : α → α → Bool) (hrefl : ∀ a b, key a = key b → le a b = true)
    (l : List α) (k : κ) :
    (sortLe le l).filter (fun v => decide (key v = k)) =
      l.filter (fun v => decide (key v = k)) := by
  induction l with
  | nil => rfl
  | cons x xs ih =>
    simp only [sortLe]
    rw [insertLe_filter_key key le hrefl]
    by_cases hx : key x = k <;> simp [List.filter, hx, ih]

theorem mem_sortLe (le : α → α → Bool) (l : List α) (a : α) :
    a ∈ sortLe le l ↔ a ∈ l :=
  (sortLe_perm le l).mem_iff

theorem tupLe_refl (a : Nat × Nat × Nat) : tupLe a a = true := by
  obtain ⟨x, y, z⟩ := a
  simp [tupLe]

theorem tupLe_trans (a b c : Nat × Nat × Nat)
    (h1 : tupLe a b = true) (h2 : tupLe b c = true) : tupLe a c = true := by
  obtain ⟨x1, y1, z1⟩ := a
  obtain ⟨x2, y2, z2⟩ := b
  obtain ⟨x3, y3, z3⟩ := c
  simp only [tupLe, Bool.or_eq_true, Bool.and_eq_true, decide_eq_true_eq]
    at h1 h2 ⊢
  omega

theorem tupLe_total (a b : Nat × Nat × Nat) :
    tupLe a b = true ∨ tupLe b a = true := by
  obtain ⟨x1, y1, z1⟩ := a
  obtain ⟨x2, y2, z2⟩ := b
  simp only [tupLe, Bool.or_eq_true, Bool.and_eq_true, decide_eq_true_eq]
  omega

theorem setLang_keys_mem (m : List (String × String)) (language cid x : String) :
    x ∈ (setLang m language cid).map Prod.fst ↔
      x = language ∨ x ∈ m.map Prod.fst := by
  induction m with
  | nil => simp [setLang]
  | cons kv rest ih =>
    obtain ⟨k, v⟩ := kv
    by_cases hk : k = language
    · subst hk; simp [setLang]
    · simp only [setLang, hk, if_neg, not_false_iff, List.map_cons,
        List.mem_cons, ih]
      tauto

theorem get_existing_after_save (coll : List SubtitleDoc)
    (author permlink video_cid language subtitle_cid video_type : String)
    (vca : Option Nat) (now : Nat) (x : String) :
    x ∈ get_existing_subtitle_languages
        (save_subtitle coll author permlink video_cid language subtitle_cid
          video_type vca now) author permlink ↔
      x = language ∨ x ∈ get_existing_subtitle_languages coll author permlink := by
  induction coll with
  | nil =>
    simp [save_subtitle, get_existing_subtitle_languages, List.find?]
  | cons d rest ih =>
    by_cases hd : d.author = author ∧ d.permlink = permlink
    · simp only [save_subtitle, if_pos hd]
      simp [get_existing_subtitle_languages, hd,
        setLang_keys_mem d.subtitles language subtitle_cid x]
    · simp only [save_subtitle, if_neg hd]
      simpa [get_existing_subtitle_languages, hd] using ih

theorem applySaves_mono (calls : List SaveArgs) (author permlink : String) :
    ∀ coll : List SubtitleDoc, ∀ x : String,
      x ∈ get_existing_subtitle_languages coll author permlink →
      x ∈ get_existing_subtitle_languages
          (applySaves coll author permlink calls) author permlink := by
  induction calls with
  | nil => intro coll x hx; exact hx
  | cons a rest ih =>
    intro coll x hx
    exact ih _ x ((get_existing_after_save coll author permlink a.video_cid
      a.language a.subtitle_cid a.video_type a.video_created_at a.now x).mpr
      (Or.inr hx))

/-! ## Claim theorems: C3, C4, C5, C6 -/

/-- C3: for every sequence of `recordSubTask` (`save_subtitle`) calls on the
same `(author, item_id)`, the set of completed sub-task language keys is
monotonically non-decreasing: one call adds or overwrites exactly the key of
its language and never removes an existing key, and over a whole sequence no
key is ever lost. -/
theorem recordSubTask_monotone (coll : List SubtitleDoc)
    (author permlink : String) (a : SaveArgs) (calls : List SaveArgs) :
    (∀ x : String,
      x ∈ get_existing_subtitle_languages
          (save_subtitle coll author permlink a.video_cid a.language
            a.subtitle_cid a.video_type a.video_created_at a.now)
          author permlink ↔
        x = a.language ∨
          x ∈ get_existing_subtitle_languages coll author permlink) ∧
    (∀ x ∈ get_existing_subtitle_languages coll author permlink,
      x ∈ get_existing_subtitle_languages
          (applySaves coll author permlink calls) author permlink) :=
  ⟨fun x => get_existing_after_save coll author permlink a.video_cid a.language
      a.subtitle_cid a.video_type a.video_created_at a.now x,
   fun x hx => applySaves_mono calls author permlink coll x hx⟩

/-- Witness for C3 at a concrete store and call sequence. -/
theorem recordSubTask_monotone_witness :
    ("en" ∈ get_existing_subtitle_languages
        (save_subtitle [sampleSub] "alice" "p1" "cidV" "es" "cidEs" "legacy"
          (some 5) 7) "alice" "p1" ↔
      ("en" = "es" ∨
        "en" ∈ get_existing_subtitle_languages [sampleSub] "alice" "p1")) ∧
    "en" ∈ get_existing_subtitle_languages
        (applySaves [sampleSub] "alice" "p1"
          [⟨"cidV", "es", "cidEs", "legacy", some 5, 7⟩]) "alice" "p1" :=
  ⟨(recordSubTask_monotone [sampleSub] "alice" "p1"
      ⟨"cidV", "es", "cidEs", "legacy", some 5, 7⟩
      [⟨"cidV", "es", "cidEs", "legacy", some 5, 7⟩]).1 "en",
   (recordSubTask_monotone [sampleSub] "alice" "p1"
      ⟨"cidV", "es", "cidEs", "legacy", some 5, 7⟩
      [⟨"cidV", "es", "cidEs", "legacy", some 5, 7⟩]).2 "en" (by decide)⟩

/-- C4: starting from an empty status collection, after any sequence of
`set_processing`/`clear_processing` calls (duplicate sets included), at most
one `ProcessingStatus` document exists. -/
theorem processing_status_at_most_one (ops : List StatusOp) :
    (applyStatusOps [] ops).length ≤ 1 :=
  applyStatusOps_length_le ops [] (by simp)

/-- C5: when the latest recorded `video_created_at` over the progress store
is `T`, a restart with no `START_DATE` override computes an effective legacy
bound `≥ T`, and a restart with override `O` computes exactly `max O T`. -/
theorem cursor_never_regresses (coll : List SubtitleDoc) (T : Nat)
    (h : get_last_processed_video_date coll = some T) :
    (∃ e, effectiveStart none coll = some e ∧ T ≤ e) ∧
    (∀ O : Nat, effectiveStart (some O) coll = some (max O T)) := by
  refine ⟨⟨T, by simp [effectiveStart, h], le_refl T⟩, ?_⟩
  intro O
  simp [effectiveStart, h]

/-- Witness for C5: a store whose latest recorded date is `5`. -/
theorem cursor_never_regresses_witness :
    (∃ e, effectiveStart none [sampleSub] = some e ∧ 5 ≤ e) ∧
    (∀ O : Nat, effectiveStart (some O) [sampleSub] = some (max O 5)) :=
  cursor_never_regresses [sampleSub] 5 (by decide)

/-- C6: `get_priority_video`'s pop returns `none` exactly on an empty lane;
otherwise it removes and returns exactly one entry, an entry of minimal
`requested_at`; the entry is removed regardless of whether the subsequent
video lookup succeeds; and after `enqueue(A); enqueue(B)` (so
`A.requested_at ≤ B.requested_at`) two dequeues yield `A` then `B`. -/
theorem priority_dequeue_fifo (lane : List PriorityEntry) :
    (popOldest lane = none ↔ lane = []) ∧
    (∀ e rest, popOldest lane = some (e, rest) →
      e ∈ lane ∧ lane.Perm (e :: rest) ∧
        ∀ x ∈ lane, e.requested_at ≤ x.requested_at) ∧
    (∀ legacyColl embedColl audioColl e rest,
      popOldest lane = some (e, rest) →
      (get_priority_video legacyColl embedColl audioColl lane).2 = rest) ∧
    (∀ A B : PriorityEntry, A.requested_at ≤ B.requested_at →
      popOldest [A, B] = some (A, [B]) ∧ popOldest [B] = some (B, [])) := by
  refine ⟨popOldest_eq_none_iff lane,
    fun e rest h => popOldest_spec lane e rest h,
    fun legacyColl embedColl audioColl e rest h => by
      simp [get_priority_video, h],
    fun A B hAB => ⟨by simp [popOldest, hAB], by simp [popOldest]⟩⟩

/-- Witness for C6 on the lane `[⟨"a","p",1⟩, ⟨"b","q",2⟩]`. -/
theorem priority_dequeue_fifo_witness :
    ((⟨"a", "p", 1⟩ : PriorityEntry) ∈
        [(⟨"a", "p", 1⟩ : PriorityEntry), ⟨"b", "q", 2⟩] ∧
      List.Perm [(⟨"a", "p", 1⟩ : PriorityEntry), ⟨"b", "q", 2⟩]
        ((⟨"a", "p", 1⟩ : PriorityEntry) :: [⟨"b", "q", 2⟩]) ∧
      ∀ x ∈ [(⟨"a", "p", 1⟩ : PriorityEntry), ⟨"b", "q", 2⟩],
        (⟨"a", "p", 1⟩ : PriorityEntry).requested_at ≤ x.requested_at) ∧
    (popOldest [(⟨"a", "p", 1⟩ : PriorityEntry), ⟨"b", "q", 2⟩] =
        some (⟨"a", "p", 1⟩, [⟨"b", "q", 2⟩]) ∧
      popOldest [(⟨"b", "q", 2⟩ : PriorityEntry)] = some (⟨"b", "q", 2⟩, [])) :=
  ⟨(priority_dequeue_fifo [⟨"a", "p", 1⟩, ⟨"b", "q", 2⟩]).2.1
      ⟨"a", "p", 1⟩ [⟨"b", "q", 2⟩] (by decide),
   (priority_dequeue_fifo [⟨"a", "p", 1⟩, ⟨"b", "q", 2⟩]).2.2.2
      ⟨"a", "p", 1⟩ ⟨"b", "q", 2⟩ (by decide)⟩

/-- C2 counterexample: `cexVideo` has every configured language (`en`)
already completed, yet `process_video` reports failure (`false`), because
the missing content CID is checked before the all-languages-done check.
The Work Executor is still invoked zero times. -/
theorem executor_skip_counterexample :
    (∀ c ∈ ([⟨"en", 0⟩] : List LangCfg).map (·.code), c ∈ ["en"]) ∧
    (process_video [⟨"en", 0⟩] ["en"] cexVideo cexEnv).1 = false ∧
    (process_video [⟨"en", 0⟩] ["en"] cexVideo cexEnv).2 = 0 :=
  ⟨by decide, rfl, rfl⟩

/-- C2 (amended): for every item that has a truthy content locator in
Python's sense (a non-empty direct CID, or a non-empty HLS manifest CID)
and whose stored language set contains every configured language — the
configuration being non-empty — `process_video` reports success and invokes
the Work Executor zero times. -/
theorem executor_zero_when_complete (cfg : List LangCfg)
    (db_existing : List String) (v : VideoDoc) (env : ExecEnv)
    (hcid : pyTruthy (extractCid v) = true ∨
      pyTruthy (extractHlsCid v) = true)
    (hcfg : cfg ≠ [])
    (hdone : ∀ c ∈ cfg.map (·.code), c ∈ db_existing) :
    process_video cfg db_existing v env = (true, 0) := by
  have hne : db_existing ≠ [] := by
    obtain ⟨l, hl⟩ := List.exists_mem_of_ne_nil cfg hcfg
    have hmem := hdone l.code (List.mem_map_of_mem _ hl)
    intro h
    rw [h] at hmem
    exact List.not_mem_nil _ hmem
  have hguard : (!pyTruthy (extractCid v) && !pyTruthy (extractHlsCid v)) =
      false := by
    rcases hcid with h | h <;> simp [h]
  simp only [process_video, hguard, Bool.false_eq_true, if_false]
  simp [hne, hdone]
  intro x hx hnotin
  exact absurd (hdone x.code (List.mem_map_of_mem _ hx)) hnotin

/-- Witness for the amended C2 at a concrete video and configuration. -/
theorem executor_zero_when_complete_witness :
    process_video [⟨"en", 0⟩] ["en"] okVideo cexEnv = (true, 0) :=
  executor_zero_when_complete [⟨"en", 0⟩] ["en"] okVideo cexEnv
    (by decide) (by decide) (by decide)

/-- C8 counterexample: `audioVideo` exists in the audio source
(`embed_audio_col`) and is not queued, yet `api_prioritize` answers
`notFound` and leaves the state unchanged, because the existence check never
consults the audio collection. -/
theorem enqueue_priority_counterexample :
    (cexDash.embed_audio_col.find? fun v =>
        v.owner = "bob" ∧ v.permlink = "p2").isSome = true ∧
    cexDash.priority_col = [] ∧
    api_prioritize cexDash "bob" "p2" 9 = (ApiResult.notFound, cexDash) :=
  ⟨by decide, rfl, by decide⟩

/-- C8 (amended): the enqueue-priority operation fails with NotFoundError
when no matching WorkItem exists in the legacy or embed sources (the audio
source is not consulted, so an audio-only item is rejected as not found, and
this check precedes the duplicate check); when a match exists it fails with
DuplicateError if an entry for the same `(author, item_id)` is already
queued, and otherwise appends a new entry stamped with the current time. -/
theorem enqueue_priority_spec (st : DashState) (author permlink : String)
    (now : Nat) :
    (¬((st.videos_col.find? fun v =>
          v.owner = author ∧ v.permlink = permlink).isSome ∨
       (st.embed_col.find? fun v =>
          v.owner = author ∧ v.permlink = permlink).isSome) →
      api_prioritize st author permlink now = (ApiResult.notFound, st)) ∧
    (((st.videos_col.find? fun v =>
          v.owner = author ∧ v.permlink = permlink).isSome ∨
      (st.embed_col.find? fun v =>
          v.owner = author ∧ v.permlink = permlink).isSome) →
      ((st.priority_col.find? fun e =>
          e.author = author ∧ e.permlink = permlink).isSome →
        api_prioritize st author permlink now = (ApiResult.conflict, st)) ∧
      (¬(st.priority_col.find? fun e =>
          e.author = author ∧ e.permlink = permlink).isSome →
        api_prioritize st author permlink now =
          (ApiResult.ok,
           { st with priority_col :=
              st.priority_col ++ [⟨author, permlink, now⟩] }))) := by
  refine ⟨fun h => ?_, fun hex => ⟨fun hq => ?_, fun hq => ?_⟩⟩
  · simp only [api_prioritize]
    rw [if_pos h]
  · simp only [api_prioritize]
    rw [if_neg (not_not_intro hex), if_pos hq]
  · simp only [api_prioritize]
    rw [if_neg (not_not_intro hex), if_neg hq]

/-- Witness for the amended C8: enqueueing the one legacy video of `okDash`
succeeds and appends the stamped entry. -/
theorem enqueue_priority_spec_witness :
    api_prioritize okDash "alice" "p1" 9 =
      (ApiResult.ok, { okDash with priority_col := [⟨"alice", "p1", 9⟩] }) :=
  ((enqueue_priority_spec okDash "alice" "p1" 9).2 (by decide)).2 (by decide)

/-- C9 counterexample: `scheduledEmbed` is an embed item with status
scheduled, a future publish time and a valid manifest CID — eligible by the
claim's rule — yet the aggregator does not return it: the
scheduled-with-future-publish alternative exists only for the legacy
source. -/
theorem aggregator_counterexample :
    scheduledEmbed.status = some "scheduled" ∧
    scheduledEmbed.publish_data = some 100 ∧ (10 : Nat) < 100 ∧
    scheduledEmbed.manifest_cid = some "mcid" ∧
    scheduledEmbed.createdAt = some 50 ∧ (0 : Nat) ≤ 50 ∧
    get_videos_since [] [scheduledEmbed] [] 0 none 10 = [] :=
  ⟨rfl, rfl, by decide, rfl, rfl, by decide, rfl⟩

/-- C9 (amended): the aggregator returns exactly the items matching each
source's query — legacy: valid `ipfs://` filename and either published with
`created ≥ start_date` or scheduled with a future publish time; embed/audio:
non-empty content CID, status published (no scheduled alternative) and
`createdAt ≥` the embed bound — tagged with their source type, and the
merged result is sorted ascending by creation time. -/
theorem aggregator_membership_sorted (legacyColl embedColl audioColl :
    List VideoDoc) (start_date : Nat) (embed_start_date : Option Nat)
    (now : Nat) :
    (∀ x, x ∈ get_videos_since legacyColl embedColl audioColl start_date
        embed_start_date now ↔
      ((∃ v ∈ legacyColl, legacyQueryMatch start_date now v = true ∧
          x = { v with videoType := some "legacy" }) ∨
       (∃ v ∈ embedColl,
          embedQueryMatch (embed_start_date.getD start_date) v = true ∧
          x = { v with videoType := some "embed" }) ∨
       (∃ v ∈ audioColl,
          audioQueryMatch (embed_start_date.getD start_date) v = true ∧
          x = { v with videoType := some "audio" }))) ∧
    (get_videos_since legacyColl embedColl audioColl start_date
        embed_start_date now).Pairwise
      fun a b => mergedDateKey a ≤ mergedDateKey b := by
  constructor
  · intro x
    simp only [get_videos_since, mongoSortByCreated, mongoSortByCreatedAt,
      mem_sortLe, List.mem_append, List.mem_map, List.mem_filter]
    constructor
    · rintro ((⟨v, ⟨hv, hq⟩, rfl⟩ | ⟨v, ⟨hv, hq⟩, rfl⟩) | ⟨v, ⟨hv, hq⟩, rfl⟩)
      · exact Or.inl ⟨v, hv, hq, rfl⟩
      · exact Or.inr (Or.inl ⟨v, hv, hq, rfl⟩)
      · exact Or.inr (Or.inr ⟨v, hv, hq, rfl⟩)
    · rintro (⟨v, hv, hq, rfl⟩ | ⟨v, hv, hq, rfl⟩ | ⟨v, hv, hq, rfl⟩)
      · exact Or.inl (Or.inl ⟨v, ⟨hv, hq⟩, rfl⟩)
      · exact Or.inl (Or.inr ⟨v, ⟨hv, hq⟩, rfl⟩)
      · exact Or.inr ⟨v, ⟨hv, hq⟩, rfl⟩
  · have h := sortLe_pairwise
      (fun a b => decide (mergedDateKey a ≤ mergedDateKey b))
      (fun a b c h1 h2 => by
        simp only [decide_eq_true_eq] at h1 h2 ⊢
        exact le_trans h1 h2)
      (fun a b => by
        simp only [decide_eq_true_eq]
        exact Nat.le_total _ _)
      ((mongoSortByCreated
          (legacyColl.filter (legacyQueryMatch start_date now))).map
          (fun v => { v with videoType := some "legacy" }) ++
        (mongoSortByCreatedAt (embedColl.filter
          (embedQueryMatch (embed_start_date.getD start_date)))).map
          (fun v => { v with videoType := some "embed" }) ++
        (mongoSortByCreatedAt (audioColl.filter
          (audioQueryMatch (embed_start_date.getD start_date)))).map
          (fun v => { v with videoType := some "audio" }))
    exact h.imp fun hab => by simpa using hab

/-- C10: the scheduling loop stably re-sorts the aggregator output by the
three-part key (priority creator first, then source type embed < legacy <
audio, then published before others): the result is a permutation of the
input, sorted by that key, with ties kept in original order; and on the
concrete time-ordered batch `[earlyAudio, laterEmbed]` the resulting
dispatch order is no longer ascending by creation time. -/
theorem schedule_resort (pc : List String) (videos : List VideoDoc) :
    (scheduleOrder pc videos).Perm videos ∧
    (scheduleOrder pc videos).Pairwise
      (fun a b => tupLe (schedSortKey pc a) (schedSortKey pc b) = true) ∧
    (∀ K : Nat × Nat × Nat,
      (scheduleOrder pc videos).filter
          (fun v => decide (schedSortKey pc v = K)) =
        videos.filter (fun v => decide (schedSortKey pc v = K))) ∧
    ¬ (scheduleOrder [] [earlyAudio, laterEmbed]).Pairwise
      (fun a b => mergedDateKey a ≤ mergedDateKey b) := by
  refine ⟨sortLe_perm _ _,
    sortLe_pairwise _
      (fun a b c h1 h2 => tupLe_trans (schedSortKey pc a) (schedSortKey pc b)
        (schedSortKey pc c) h1 h2)
      (fun a b => tupLe_total (schedSortKey pc a) (schedSortKey pc b)) _,
    fun K => sortLe_filter_key (schedSortKey pc) _
      (fun a b h => by
        show tupLe (schedSortKey pc a) (schedSortKey pc b) = true
        rw [h]
        exact tupLe_refl _) _ K,
    by decide⟩

/-- C1 counterexample: a run of the loop over the non-empty candidate list
`[laterEmbed]` with lane `[ghostEntry, aliceEntry]`, where `ghostEntry` has
no matching video.  The drain pops `ghostEntry`, `get_priority_video`
returns `None`, and the `while` loop exits — so at dispatch of the (only,
hence last) candidate the lane still holds `aliceEntry` (a resolvable
entry), and at batch end the lane is still non-empty: the lane is neither
drained fully before the candidate nor drained again after the last
candidate. -/
theorem priority_drain_counterexample :
    (lookupVideo cexCat aliceEntry.author aliceEntry.permlink).isSome =
      true ∧
    (runBatch emptyBl cexCat [(laterEmbed, [])]
        [ghostEntry, aliceEntry]).1.map IterRec.laneAtDispatch =
      [[aliceEntry]] ∧
    (runBatch emptyBl cexCat [(laterEmbed, [])] [ghostEntry, aliceEntry]).2 =
      [aliceEntry] :=
  ⟨by decide, by decide, by decide⟩

/-- C1 (amended): at the top of each candidate iteration the loop pops the
Priority Lane one entry at a time, each popped entry re-checked against the
Blacklist Guard; when every entry of the lane at that point resolves to a
known item, the lane is fully drained before the candidate is dispatched
(the drain stops early at an unresolvable popped entry, leaving the rest of
the lane).  No drain runs after the final candidate: for a one-candidate
batch the final lane is exactly the lane left at dispatch plus whatever was
enqueued during the candidate's processing. -/
theorem priority_drain_before_candidates (bl : Blacklist) (cat : Catalog)
    (videos : List (VideoDoc × List PriorityEntry)) :
    (∀ lane : List PriorityEntry,
      ∀ r ∈ (runBatch bl cat videos lane).1,
        (∀ e ∈ r.laneBefore,
          (lookupVideo cat e.author e.permlink).isSome = true) →
        r.laneAtDispatch = []) ∧
    (∀ (v : VideoDoc) (inj lane : List PriorityEntry),
      (runBatch bl cat [(v, inj)] lane).2 =
        (drainPriority bl cat lane).2 ++ inj) := by
  constructor
  · induction videos with
    | nil =>
      intro lane r hr
      simp [runBatch] at hr
    | cons vi rest ih =>
      obtain ⟨v, inj⟩ := vi
      intro lane r hr
      simp only [runBatch, List.mem_cons] at hr
      rcases hr with rfl | hr
      · intro hres
        exact drainPriority_resolves_empty bl cat lane.length lane
          (le_refl _) hres
      · exact ih _ r hr
  · intro v inj lane
    simp [runBatch]

/-- Witness for the amended C1: in the concrete run over `[(laterEmbed, [])]`
with the fully resolvable lane `[aliceEntry]`, the single iteration record
is `witnessRec` and its lane at dispatch is empty. -/
theorem priority_drain_before_candidates_witness :
    witnessRec ∈
      (runBatch emptyBl cexCat [(laterEmbed, [])] [aliceEntry]).1 ∧
    witnessRec.laneAtDispatch = [] :=
  ⟨by decide,
   (priority_drain_before_candidates emptyBl cexCat [(laterEmbed, [])]).1
     [aliceEntry] witnessRec (by decide) (by decide)⟩

/-- C7: every candidate, normal or priority, for which the Blacklist Guard
returns true at dispatch time is skipped: no Status-Beacon-set event and no
`process_video` (Work Executor) event is ever emitted for a blacklisted
`(author, permlink)` — in particular for items already sitting in the
Priority Lane when their author enters the blacklist, since the guard is
evaluated on the current blacklist at pop time. -/
theorem blacklisted_never_dispatched (bl : Blacklist) (cat : Catalog)
    (videos : List (VideoDoc × List PriorityEntry))
    (lane : List PriorityEntry) (a p : String)
    (hblk : is_blacklisted bl a p = true) :
    Ev.beaconSet a p ∉ batchEvents (runBatch bl cat videos lane).1 ∧
    Ev.procVideo a p ∉ batchEvents (runBatch bl cat videos lane).1 := by
  constructor <;> intro hmem
  · have hfalse := runBatch_events_not_blacklisted bl cat videos lane a p
      (Or.inl hmem)
    rw [hblk] at hfalse
    exact Bool.noConfusion hfalse
  · have hfalse := runBatch_events_not_blacklisted bl cat videos lane a p
      (Or.inr hmem)
    rw [hblk] at hfalse
    exact Bool.noConfusion hfalse

/-- Witness for C7: `eve` is blacklisted while `eveEntry` already sits in
the lane and `eveVideo` is also a normal candidate; the run emits no beacon
or process event for `eve/p9`. -/
theorem blacklisted_never_dispatched_witness :
    Ev.beaconSet "eve" "p9" ∉
      batchEvents (runBatch eveBl eveCat [(eveVideo, [])] [eveEntry]).1 ∧
    Ev.procVideo "eve" "p9" ∉
      batchEvents (runBatch eveBl eveCat [(eveVideo, [])] [eveEntry]).1 :=
  blacklisted_never_dispatched eveBl eveCat [(eveVideo, [])] [eveEntry]
    "eve" "p9" (by decide)

end Subtitle3Speak
